import Mathlib

/-!
Verification model of the Async application core (AsyncApplication.h) and
the RtlUsb device interface (RtlUsb.h) from the svxlink repository.

The visible source provides the class declarations (fields, in-class
initializers, the inline accessor `threadId`, the inline `RtlUsb::isReady`).
The bodies of `runTask`, `processTaskQueue`, `app`, `clearTasks`, the
constructor and the destructor live in AsyncApplication.cpp, which is not
part of the visible source; those operations are modelled from the spec,
as marked in their doc comments.
-/

namespace Async

/-- A task (a `sigc::slot<void>` in the source) is identified by a natural
number id; invoking a task is recorded by appending its id to the
invocation history. -/
abbrev Task := Nat

/-- State of one `Async::Application` instance, mirroring the private data
members declared in AsyncApplication.h (lines 222-227).  `m_task_queue` is
the `std::deque` of queued slots, head at the front.  `pendingWakeups`
models the number of readiness bytes currently buffered in the wakeup
pipe whose write end is `m_task_wr_pipe`.  `invoked` is the history of
tasks that have been invoked on the main thread, in invocation order.
The in-class initializers `m_task_rd_watch = 0` and `m_task_wr_pipe = -1`
are taken verbatim from source lines 226-227. -/
structure AppState where
  m_main_thread_id : Nat
  m_task_queue : List Task
  pendingWakeups : Nat
  invoked : List Task
  m_task_rd_watch : Nat := 0
  m_task_wr_pipe : Int := -1
deriving DecidableEq

/-- From source line 189: `std::thread::id threadId(void) const { return
m_main_thread_id; }`. -/
def threadId (st : AppState) : Nat := st.m_main_thread_id

/-- Modelled from the spec: construction "captures the constructing
thread's identity as the permanent main thread identity"; the queue
starts empty.  The wakeup-watcher and pipe fields keep their in-class
initializer values (source lines 226-227) until the constructor body
opens the channel. -/
def constructAppState (tid : Nat) : AppState :=
  { m_main_thread_id := tid
    m_task_queue := []
    pendingWakeups := 0
    invoked := [] }

/-- Modelled from the spec (4.2, AsyncApplication.cpp not visible):
`runTask(task)` acquires the queue lock, appends the task to the tail,
and, only if the queue was empty immediately before the append, signals
the wakeup channel's write end exactly once; the task is never invoked
synchronously.  The lock-protected critical section is modelled as one
atomic state transformation. -/
def runTask (st : AppState) (t : Task) : AppState :=
  { st with
    m_task_queue := st.m_task_queue ++ [t]
    pendingWakeups :=
      if st.m_task_queue.isEmpty then st.pendingWakeups + 1
      else st.pendingWakeups }

/-- Modelled from the spec (4.2, AsyncApplication.cpp not visible): one
iteration of the drain loop of `processTaskQueue`: acquire the lock; if
the queue is empty stop; otherwise pop the head task, release the lock,
invoke the task.  `gen t` lists the tasks that task `t` itself submits
via re-entrant `runTask` calls during its invocation (made with the lock
released, so they go through the ordinary `runTask` path). -/
def drainStep (gen : Task → List Task) (st : AppState) : AppState :=
  match st.m_task_queue with
  | [] => st
  | t :: rest =>
      let st2 := { st with m_task_queue := rest, invoked := st.invoked ++ [t] }
      (gen t).foldl runTask st2

/-- Modelled from the spec (4.2, AsyncApplication.cpp not visible): the
drain loop of `processTaskQueue`, repeating `drainStep` until it observes
an empty queue.  `fuel` bounds the number of iterations so the model is
total; the spec's loop corresponds to unbounded fuel. -/
def processTaskQueue (gen : Task → List Task) : Nat → AppState → AppState
  | 0, st => st
  | fuel + 1, st =>
      if st.m_task_queue.isEmpty then st
      else processTaskQueue gen fuel (drainStep gen st)

/-- Modelled from the spec (4.2, AsyncApplication.cpp not visible):
`clearTasks` discards all queued tasks without invoking them. -/
def clearTasks (st : AppState) : AppState :=
  { st with m_task_queue := [] }

/-- One observable event of an execution of the scheduler: a `runTask`
call from some thread (re-entrant calls made from inside a running task
appear as ordinary `submit` events of the main thread), or one drain
iteration run by the main thread. -/
inductive Event where
  | submit (tid : Nat) (t : Task)
  | drainStepEv
deriving DecidableEq

/-- The tasks submitted in a trace, in trace order (the order in which
the submitting threads acquired the queue lock). -/
def submitsOf : List Event → List Task
  | [] => []
  | Event.submit _ t :: es => t :: submitsOf es
  | Event.drainStepEv :: es => submitsOf es

/-- Effect of one event on the application state. -/
def stepEvent (st : AppState) : Event → AppState
  | Event.submit _ t => runTask st t
  | Event.drainStepEv => drainStep (fun _ => []) st

/-- Run a trace of events from a starting state. -/
def runEvents (st : AppState) (es : List Event) : AppState :=
  es.foldl stepEvent st

/-- Size of the spawn tree of task `t` truncated at depth `fuel`: the
task itself plus, recursively, the tasks it enqueues when invoked. -/
def spawnWeight (gen : Task → List Task) : Nat → Task → Nat
  | 0, _ => 1
  | fuel + 1, t => 1 + ((gen t).map (spawnWeight gen fuel)).sum

/-- Total spawn-tree size of a queue, each task truncated at its rank. -/
def queueWeight (gen : Task → List Task) (rank : Task → Nat)
    (q : List Task) : Nat :=
  (q.map (fun t => spawnWeight gen (rank t) t)).sum

/-- A self-replicating task system: invoking a task submits it again. -/
def genLoop : Task → List Task := fun t => [t]

/-- A state holding exactly one queued copy of task `0`, obtained by
submitting it to a freshly constructed instance. -/
def stLoop : AppState := runTask (constructAppState 0) 0

/-- A task system in which no task enqueues anything. -/
def genNone : Task → List Task := fun _ => []

/-- The constant-zero rank, fitting `genNone`. -/
def rankZero : Task → Nat := fun _ => 0

/-- A task system in which task `0` re-entrantly submits task `1` and no
other task submits anything. -/
def genOnce : Task → List Task := fun t => if t = 0 then [1] else []

/-- Result of an operation that may terminate the process through a
failed (irrecoverable) assertion. -/
inductive FatalOr (α : Type) where
  | ok (a : α)
  | fatalAssert
deriving DecidableEq

/-- Process-wide lifecycle state: `app_ptr` identifies the live Instance
if any (the static `Application *app_ptr` of AsyncApplication.h line
220); `liveCount` counts Instances constructed and not yet destroyed;
`nextId` is a fresh identity source. -/
structure ProcState where
  app_ptr : Option Nat
  liveCount : Nat
  nextId : Nat
deriving DecidableEq

/-- Modelled from the spec (4.1, AsyncApplication.cpp not visible):
`app()` returns the one and only application instance and fails fatally,
via an irrecoverable assertion, if none has been constructed (source
line 132 declares it; its documentation promises the crash). -/
def app (s : ProcState) : FatalOr Nat :=
  match s.app_ptr with
  | none => FatalOr.fatalAssert
  | some i => FatalOr.ok i

/-- Modelled from the spec (4.1, AsyncApplication.cpp not visible):
construction establishes process-wide visibility of the new Instance;
constructing while one already exists is a fatal assertion failure. -/
def constructApplication (s : ProcState) : FatalOr ProcState :=
  match s.app_ptr with
  | some _ => FatalOr.fatalAssert
  | none =>
      FatalOr.ok
        { app_ptr := some s.nextId
          liveCount := s.liveCount + 1
          nextId := s.nextId + 1 }

/-- Modelled from the spec (4.1, AsyncApplication.cpp not visible):
destruction of the live Instance clears process-wide visibility. -/
def destroyApplication (s : ProcState) : ProcState :=
  { s with app_ptr := none, liveCount := s.liveCount - 1 }

/-- A lifecycle operation: construct an Instance or destroy the live one. -/
inductive LifecycleOp where
  | constructOp
  | destroyOp
deriving DecidableEq

/-- One lifecycle step; `none` means the step is impossible without a
fatal assertion (constructing a second Instance) or meaningless (running
the destructor with no live Instance). -/
def lifecycleStep (s : ProcState) : LifecycleOp → Option ProcState
  | LifecycleOp.constructOp =>
      match constructApplication s with
      | FatalOr.ok s2 => some s2
      | FatalOr.fatalAssert => none
  | LifecycleOp.destroyOp =>
      match s.app_ptr with
      | some _ => some (destroyApplication s)
      | none => none

/-- The process starts with no Instance and `app_ptr` null. -/
def initialProcState : ProcState :=
  { app_ptr := none, liveCount := 0, nextId := 0 }

/-- Run a sequence of lifecycle operations from a given state; `none`
when some step was fatal or impossible. -/
def runLifecycleFrom (s : ProcState) : List LifecycleOp → Option ProcState
  | [] => some s
  | op :: ops =>
      match lifecycleStep s op with
      | none => none
      | some s2 => runLifecycleFrom s2 ops

/-- Run a sequence of lifecycle operations from process start. -/
def runLifecycle (ops : List LifecycleOp) : Option ProcState :=
  runLifecycleFrom initialProcState ops

/-- The lifecycle invariant: at most one live Instance, and the static
pointer is set exactly while one is live. -/
def ProcInv (s : ProcState) : Prop :=
  s.liveCount ≤ 1 ∧ (s.app_ptr.isSome ↔ s.liveCount = 1)

/-- Observable actions of the destructor, in order of occurrence. -/
inductive TeardownEvent where
  | sigDestroy
  | discardTask (t : Task)
  | delTaskWatch
  | delTaskTimer
  | closeTaskPipe
  | clearAppPtr
deriving DecidableEq

/-- Modelled from the spec (4.1, AsyncApplication.cpp not visible):
destruction fires the one-time `destroy` notification first, then
discards all not-yet-run queued tasks without invoking them
(`clearTasks`), then deregisters the wakeup watcher and the backstop
timer, then closes the wakeup channel, then clears process-wide
visibility.  The first component lists the observable actions in order;
the second is the final instance state. -/
def applicationDestructor (st : AppState) : List TeardownEvent × AppState :=
  (TeardownEvent.sigDestroy
      :: (st.m_task_queue.map TeardownEvent.discardTask
        ++ [TeardownEvent.delTaskWatch, TeardownEvent.delTaskTimer,
            TeardownEvent.closeTaskPipe, TeardownEvent.clearAppPtr]),
    { clearTasks st with m_task_rd_watch := 0, m_task_wr_pipe := -1 })

end Async

/-- State of an `RtlUsb` object: the private data members of RtlUsb.h
lines 224-230.  The `rtlsdr_dev_t *dev` handle is an `Option`, `none`
standing for the `NULL` pointer of an absent or not-yet-opened dongle. -/
structure RtlUsb where
  reconnect_timer : Nat
  dev : Option Nat
  dev_match : String
  dev_name : String
  rtl_reader_thread_started : Bool
deriving DecidableEq

/-- From RtlUsb.h line 137: `virtual bool isReady(void) const { return
dev != NULL; }`. -/
def RtlUsb.isReady (r : RtlUsb) : Bool := r.dev.isSome

/-- The call `r.isReady()` as a state-passing operation: the method body
only reads `dev` (the method is declared `const`), so the object is
returned unchanged alongside the result. -/
def RtlUsb.isReadyCall (r : RtlUsb) : Bool × RtlUsb := (r.dev.isSome, r)

namespace Async

/-! ### Basic lemmas about the scheduler operations -/

theorem runTask_queue (st : AppState) (t : Task) :
    (runTask st t).m_task_queue = st.m_task_queue ++ [t] := rfl

theorem runTask_invoked (st : AppState) (t : Task) :
    (runTask st t).invoked = st.invoked := rfl

theorem runTask_tid (st : AppState) (t : Task) :
    (runTask st t).m_main_thread_id = st.m_main_thread_id := rfl

theorem foldl_runTask_queue (l : List Task) :
    ∀ st : AppState, (l.foldl runTask st).m_task_queue = st.m_task_queue ++ l := by
  induction l with
  | nil => intro st; simp [List.foldl]
  | cons a l ih =>
      intro st
      simp [List.foldl, ih (runTask st a), runTask_queue]

theorem foldl_runTask_invoked (l : List Task) :
    ∀ st : AppState, (l.foldl runTask st).invoked = st.invoked := by
  induction l with
  | nil => intro st; rfl
  | cons a l ih =>
      intro st
      simp [List.foldl, ih (runTask st a), runTask_invoked]

theorem foldl_runTask_tid (l : List Task) :
    ∀ st : AppState, (l.foldl runTask st).m_main_thread_id = st.m_main_thread_id := by
  induction l with
  | nil => intro st; rfl
  | cons a l ih =>
      intro st
      simp [List.foldl, ih (runTask st a), runTask_tid]

theorem drainStep_empty (gen : Task → List Task) (st : AppState)
    (h : st.m_task_queue = []) : drainStep gen st = st := by
  unfold drainStep
  rw [h]

theorem drainStep_queue (gen : Task → List Task) (st : AppState)
    (t : Task) (rest : List Task) (h : st.m_task_queue = t :: rest) :
    (drainStep gen st).m_task_queue = rest ++ gen t := by
  unfold drainStep
  rw [h]
  simp [foldl_runTask_queue]

theorem drainStep_invoked (gen : Task → List Task) (st : AppState)
    (t : Task) (rest : List Task) (h : st.m_task_queue = t :: rest) :
    (drainStep gen st).invoked = st.invoked ++ [t] := by
  unfold drainStep
  rw [h]
  simp [foldl_runTask_invoked]

theorem drainStep_tid (gen : Task → List Task) (st : AppState) :
    (drainStep gen st).m_main_thread_id = st.m_main_thread_id := by
  unfold drainStep
  cases h : st.m_task_queue with
  | nil => rfl
  | cons t rest => simp [foldl_runTask_tid]

theorem processTaskQueue_empty (gen : Task → List Task) (fuel : Nat)
    (st : AppState) (h : st.m_task_queue = []) :
    processTaskQueue gen fuel st = st := by
  cases fuel with
  | zero => rfl
  | succ fuel => simp [processTaskQueue, h]

theorem processTaskQueue_succ_nonempty (gen : Task → List Task) (fuel : Nat)
    (st : AppState) (h : st.m_task_queue ≠ []) :
    processTaskQueue gen (fuel + 1) st
      = processTaskQueue gen fuel (drainStep gen st) := by
  simp [processTaskQueue, List.isEmpty_iff, h]

theorem processTaskQueue_tid (gen : Task → List Task) (fuel : Nat) :
    ∀ st : AppState,
      (processTaskQueue gen fuel st).m_main_thread_id = st.m_main_thread_id := by
  induction fuel with
  | zero => intro st; rfl
  | succ fuel ih =>
      intro st
      by_cases h : st.m_task_queue = []
      · rw [processTaskQueue_empty gen _ st h]
      · rw [processTaskQueue_succ_nonempty gen fuel st h, ih, drainStep_tid]

theorem processTaskQueue_invoked_mono (gen : Task → List Task) (fuel : Nat) :
    ∀ (st : AppState) (x : Task), x ∈ st.invoked →
      x ∈ (processTaskQueue gen fuel st).invoked := by
  induction fuel with
  | zero => intro st x hx; exact hx
  | succ fuel ih =>
      intro st x hx
      by_cases h : st.m_task_queue = []
      · rw [processTaskQueue_empty gen _ st h]; exact hx
      · rw [processTaskQueue_succ_nonempty gen fuel st h]
        obtain ⟨t, rest, hq⟩ := List.exists_cons_of_ne_nil h
        exact ih _ x (by
          rw [drainStep_invoked gen st t rest hq]
          exact List.mem_append_left _ hx)

theorem processTaskQueue_add (gen : Task → List Task) (a : Nat) :
    ∀ (b : Nat) (st : AppState),
      processTaskQueue gen (a + b) st
        = processTaskQueue gen b (processTaskQueue gen a st) := by
  induction a with
  | zero => intro b st; simp [processTaskQueue]
  | succ a ih =>
      intro b st
      by_cases h : st.m_task_queue = []
      · rw [processTaskQueue_empty gen _ st h, processTaskQueue_empty gen _ st h,
          processTaskQueue_empty gen _ st h]
      · have hrearr : a + 1 + b = (a + b) + 1 := by omega
        rw [hrearr, processTaskQueue_succ_nonempty gen (a + b) st h, ih,
          processTaskQueue_succ_nonempty gen a st h]

/-- Every task currently in the queue is invoked by the current drain
pass: if the queue decomposes as `q1 ++ t :: q2`, then after
`q1.length + 1` iterations the task `t` has been invoked, regardless of
what further tasks the invoked tasks themselves enqueue (those are
appended behind `t`). -/
theorem processTaskQueue_invokes (gen : Task → List Task) :
    ∀ (q1 : List Task) (t : Task) (q2 : List Task) (st : AppState),
      st.m_task_queue = q1 ++ t :: q2 →
      t ∈ (processTaskQueue gen (q1.length + 1) st).invoked := by
  intro q1
  induction q1 with
  | nil =>
      intro t q2 st hq
      simp only [List.nil_append] at hq
      have hne : st.m_task_queue ≠ [] := by rw [hq]; simp
      rw [List.length_nil, Nat.zero_add,
        processTaskQueue_succ_nonempty gen 0 st hne]
      show t ∈ (drainStep gen st).invoked
      rw [drainStep_invoked gen st t q2 hq]
      simp
  | cons a q1 ih =>
      intro t q2 st hq
      have hne : st.m_task_queue ≠ [] := by rw [hq]; simp
      have hlen : q1.length + 1 + 1 = (a :: q1).length + 1 := by simp
      rw [← hlen, processTaskQueue_succ_nonempty gen (q1.length + 1) st hne]
      apply ih t (q2 ++ gen a) (drainStep gen st)
      rw [drainStep_queue gen st a (q1 ++ t :: q2) hq]
      simp

/-! ### Lemmas about submission traces -/

theorem submitsOf_append (es1 es2 : List Event) :
    submitsOf (es1 ++ es2) = submitsOf es1 ++ submitsOf es2 := by
  induction es1 with
  | nil => rfl
  | cons e es1 ih =>
      cases e with
      | submit tid t => simp [submitsOf, ih]
      | drainStepEv => simp [submitsOf, ih]

theorem runEvents_nil (st : AppState) : runEvents st [] = st := rfl

theorem runEvents_cons (st : AppState) (e : Event) (es : List Event) :
    runEvents st (e :: es) = runEvents (stepEvent st e) es := rfl

/-- Conservation invariant: along any trace, the invocation history
followed by the current queue equals the starting history and queue
followed by the tasks submitted in the trace, in submission order. -/
theorem runEvents_conservation (es : List Event) :
    ∀ st : AppState,
      (runEvents st es).invoked ++ (runEvents st es).m_task_queue
        = st.invoked ++ st.m_task_queue ++ submitsOf es := by
  induction es with
  | nil => intro st; simp [runEvents_nil, submitsOf]
  | cons e es ih =>
      intro st
      rw [runEvents_cons]
      cases e with
      | submit tid t =>
          rw [ih (stepEvent st (Event.submit tid t))]
          simp [stepEvent, runTask_queue, runTask_invoked, submitsOf]
      | drainStepEv =>
          rw [ih (stepEvent st Event.drainStepEv)]
          show (drainStep (fun _ => []) st).invoked
                ++ (drainStep (fun _ => []) st).m_task_queue ++ submitsOf es = _
          cases hq : st.m_task_queue with
          | nil => rw [drainStep_empty _ st hq, hq]; simp [submitsOf]
          | cons t rest =>
              rw [drainStep_invoked _ st t rest hq,
                drainStep_queue _ st t rest hq]
              simp [submitsOf, hq]

theorem runEvents_tid (es : List Event) :
    ∀ st : AppState,
      (runEvents st es).m_main_thread_id = st.m_main_thread_id := by
  induction es with
  | nil => intro st; rfl
  | cons e es ih =>
      intro st
      rw [runEvents_cons]
      cases e with
      | submit tid t => rw [ih]; exact runTask_tid st t
      | drainStepEv => rw [ih]; exact drainStep_tid _ st

/-- An element sitting right after a prefix of known length is found at
the index equal to that length. -/
theorem getElem_append_cons {α : Type} (l1 : List α) (x : α) (m : List α) :
    (l1 ++ x :: m)[l1.length]? = some x := by
  induction l1 with
  | nil => simp
  | cons a l1 ih => simpa using ih

/-! ### Termination of the drain pass

When the invoked tasks collectively enqueue only finitely many further
tasks — expressed by a rank function that strictly decreases from a task
to each task it enqueues — the drain pass terminates.  The measure is the
total size of the spawn trees of the queued tasks, which decreases by
exactly one at every drain iteration. -/

theorem spawnWeight_pos (gen : Task → List Task) (fuel : Nat) (t : Task) :
    1 ≤ spawnWeight gen fuel t := by
  cases fuel with
  | zero => exact Nat.le_refl 1
  | succ fuel => simp [spawnWeight]

theorem map_sum_congr {α : Type} (f g : α → Nat) (l : List α)
    (h : ∀ a ∈ l, f a = g a) : (l.map f).sum = (l.map g).sum := by
  induction l with
  | nil => rfl
  | cons a l ih =>
      simp only [List.map_cons, List.sum_cons]
      rw [h a (List.mem_cons_self a l), ih (fun b hb => h b (List.mem_cons_of_mem a hb))]

theorem gen_eq_nil_of_rank_zero (gen : Task → List Task) (rank : Task → Nat)
    (hr : ∀ t u, u ∈ gen t → rank u < rank t) (t : Task)
    (h0 : rank t = 0) : gen t = [] := by
  cases hg : gen t with
  | nil => rfl
  | cons u l =>
      exfalso
      have := hr t u (by rw [hg]; simp)
      omega

/-- The truncated spawn weight is independent of the truncation depth as
soon as the depth reaches the task's rank. -/
theorem spawnWeight_stable (gen : Task → List Task) (rank : Task → Nat)
    (hr : ∀ t u, u ∈ gen t → rank u < rank t) :
    ∀ (f1 : Nat) (t : Task) (f2 : Nat), rank t ≤ f1 → rank t ≤ f2 →
      spawnWeight gen f1 t = spawnWeight gen f2 t := by
  intro f1
  induction f1 with
  | zero =>
      intro t f2 h1 h2
      have hnil : gen t = [] :=
        gen_eq_nil_of_rank_zero gen rank hr t (Nat.le_zero.mp h1)
      cases f2 with
      | zero => rfl
      | succ f2 => simp [spawnWeight, hnil]
  | succ f1 ih =>
      intro t f2 h1 h2
      cases f2 with
      | zero =>
          have hnil : gen t = [] :=
            gen_eq_nil_of_rank_zero gen rank hr t (Nat.le_zero.mp h2)
          simp [spawnWeight, hnil]
      | succ f2 =>
          simp only [spawnWeight]
          congr 1
          apply map_sum_congr
          intro u hu
          have hu1 : rank u ≤ f1 := by have := hr t u hu; omega
          have hu2 : rank u ≤ f2 := by have := hr t u hu; omega
          exact ih u f2 hu1 hu2

/-- Each drain iteration on a non-empty queue decreases the total queue
weight by exactly one. -/
theorem queueWeight_drainStep (gen : Task → List Task) (rank : Task → Nat)
    (hr : ∀ t u, u ∈ gen t → rank u < rank t) (st : AppState)
    (t : Task) (rest : List Task) (hq : st.m_task_queue = t :: rest) :
    queueWeight gen rank (drainStep gen st).m_task_queue + 1
      = queueWeight gen rank st.m_task_queue := by
  rw [drainStep_queue gen st t rest hq, hq]
  simp only [queueWeight, List.map_append, List.sum_append, List.map_cons,
    List.sum_cons]
  have hhead : spawnWeight gen (rank t) t
      = 1 + ((gen t).map (fun u => spawnWeight gen (rank u) u)).sum := by
    cases hrk : rank t with
    | zero =>
        have hnil : gen t = [] := gen_eq_nil_of_rank_zero gen rank hr t hrk
        simp [spawnWeight, hnil]
    | succ r =>
        simp only [spawnWeight]
        congr 1
        apply map_sum_congr
        intro u hu
        have := hr t u hu
        rw [hrk] at this
        exact spawnWeight_stable gen rank hr r u (rank u) (by omega) (Nat.le_refl _)
  rw [hhead]
  omega

/-- With fuel equal to the total queue weight, the drain pass reaches the
empty queue: finitely spawning task systems are drained to quiescence. -/
theorem processTaskQueue_drains (gen : Task → List Task) (rank : Task → Nat)
    (hr : ∀ t u, u ∈ gen t → rank u < rank t) :
    ∀ (n : Nat) (st : AppState),
      queueWeight gen rank st.m_task_queue = n →
      (processTaskQueue gen n st).m_task_queue = [] := by
  intro n
  induction n with
  | zero =>
      intro st hw
      cases hq : st.m_task_queue with
      | nil => simp [processTaskQueue, hq]
      | cons t rest =>
          exfalso
          rw [hq] at hw
          simp only [queueWeight, List.map_cons, List.sum_cons] at hw
          have := spawnWeight_pos gen (rank t) t
          omega
  | succ n ih =>
      intro st hw
      cases hq : st.m_task_queue with
      | nil => rw [processTaskQueue_empty gen _ st hq]; exact hq
      | cons t rest =>
          rw [processTaskQueue_succ_nonempty gen n st (by rw [hq]; simp)]
          apply ih
          have := queueWeight_drainStep gen rank hr st t rest hq
          omega

/-- Under the self-replicating task the queue is `[0]` forever: the drain
pass never observes an empty queue, whatever the iteration bound. -/
theorem genLoop_never_drains :
    ∀ (fuel : Nat) (st : AppState), st.m_task_queue = [0] →
      (processTaskQueue genLoop fuel st).m_task_queue = [0] := by
  intro fuel
  induction fuel with
  | zero => intro st h; exact h
  | succ fuel ih =>
      intro st h
      rw [processTaskQueue_succ_nonempty genLoop fuel st (by rw [h]; simp)]
      apply ih
      rw [drainStep_queue genLoop st 0 [] h]
      rfl

/-! ### Lifecycle lemmas -/

theorem lifecycleStep_inv (s : ProcState) (op : LifecycleOp) (s2 : ProcState)
    (hinv : ProcInv s) (hstep : lifecycleStep s op = some s2) : ProcInv s2 := by
  obtain ⟨hle, hiff⟩ := hinv
  cases op with
  | constructOp =>
      cases hptr : s.app_ptr with
      | some i => simp [lifecycleStep, constructApplication, hptr] at hstep
      | none =>
          simp only [lifecycleStep, constructApplication, hptr] at hstep
          have hlc : s.liveCount = 0 := by
            rw [hptr] at hiff
            simp only [Option.isSome_none, Bool.false_eq_true, false_iff] at hiff
            omega
          obtain rfl := Option.some.inj hstep
          constructor
          · simp [hlc]
          · simp [hlc]
  | destroyOp =>
      cases hptr : s.app_ptr with
      | none => simp [lifecycleStep, hptr] at hstep
      | some i =>
          simp only [lifecycleStep, hptr] at hstep
          have hlc : s.liveCount = 1 := by
            rw [hptr] at hiff
            simp only [Option.isSome_some, true_iff] at hiff
            exact hiff
          obtain rfl := Option.some.inj hstep
          constructor
          · simp [destroyApplication, hlc]
          · simp [destroyApplication, hlc]

theorem runLifecycleFrom_inv (ops : List LifecycleOp) :
    ∀ (s0 s : ProcState), ProcInv s0 →
      runLifecycleFrom s0 ops = some s →
      ProcInv s := by
  induction ops with
  | nil =>
      intro s0 s h0 hrun
      simp only [runLifecycleFrom, Option.some.injEq] at hrun
      rw [← hrun]; exact h0
  | cons op ops ih =>
      intro s0 s h0 hrun
      simp only [runLifecycleFrom] at hrun
      cases hstep : lifecycleStep s0 op with
      | none => rw [hstep] at hrun; exact absurd hrun (by simp)
      | some s1 =>
          rw [hstep] at hrun
          exact ih s1 s (lifecycleStep_inv s0 op s1 h0 hstep) hrun

theorem count_sigDestroy_map_discard (q : List Task) :
    (q.map TeardownEvent.discardTask).count TeardownEvent.sigDestroy = 0 := by
  induction q with
  | nil => rfl
  | cons t q ih => simp [List.count_cons, ih]

/-! ### Claims -/

/-- C1: for every finite execution in which `runTask` is called N times
from any mix of threads and the main loop drains to quiescence, the
invocation history equals the list of submitted tasks in submission
order: exactly N invocations occur, each submitted task is invoked
exactly once (same multiplicity), and at no point of the trace has a
task been invoked more times than it had been submitted. -/
theorem runTask_no_lost_tasks (tid : Nat) (es : List Event)
    (hq : (runEvents (constructAppState tid) es).m_task_queue = []) :
    (runEvents (constructAppState tid) es).invoked = submitsOf es
    ∧ (runEvents (constructAppState tid) es).invoked.length
        = (submitsOf es).length
    ∧ (∀ t : Task, (runEvents (constructAppState tid) es).invoked.count t
        = (submitsOf es).count t)
    ∧ (∀ pre suf : List Event, es = pre ++ suf → ∀ t : Task,
        (runEvents (constructAppState tid) pre).invoked.count t
          ≤ (submitsOf pre).count t) := by
  have hcons := runEvents_conservation es (constructAppState tid)
  rw [hq, show (constructAppState tid).invoked = [] from rfl,
    show (constructAppState tid).m_task_queue = [] from rfl] at hcons
  simp only [List.append_nil, List.nil_append] at hcons
  refine ⟨hcons, by rw [hcons], fun t => by rw [hcons], ?_⟩
  intro pre suf hsplit t
  have hpre := runEvents_conservation pre (constructAppState tid)
  rw [show (constructAppState tid).invoked = [] from rfl,
    show (constructAppState tid).m_task_queue = [] from rfl] at hpre
  simp only [List.append_nil, List.nil_append] at hpre
  have hc : ((runEvents (constructAppState tid) pre).invoked
      ++ (runEvents (constructAppState tid) pre).m_task_queue).count t
      = (submitsOf pre).count t := by rw [hpre]
  rw [List.count_append] at hc
  omega

/-- Witness for C1 on a concrete trace: two submissions from two
threads followed by two drain iterations reach quiescence and the
invocation history is exactly the submission list. -/
theorem runTask_no_lost_tasks_witness :
    (runEvents (constructAppState 0)
        [Event.submit 1 5, Event.submit 2 7, Event.drainStepEv,
          Event.drainStepEv]).invoked
      = submitsOf [Event.submit 1 5, Event.submit 2 7, Event.drainStepEv,
          Event.drainStepEv] :=
  (runTask_no_lost_tasks 0
    [Event.submit 1 5, Event.submit 2 7, Event.drainStepEv, Event.drainStepEv]
    (by decide)).1

/-- C2: along every lifecycle trace that avoids fatal assertions, at most
one Instance is live; while one is live, `app()` returns exactly that
Instance; calling `app()` with no live Instance hits the fatal assertion,
as does constructing a second Instance while one is live. -/
theorem singleton_lifecycle (ops : List LifecycleOp) (s : ProcState)
    (h : runLifecycle ops = some s) :
    s.liveCount ≤ 1
    ∧ (∀ i : Nat, s.app_ptr = some i → app s = FatalOr.ok i)
    ∧ (s.app_ptr = none → app s = FatalOr.fatalAssert)
    ∧ (∀ i : Nat, s.app_ptr = some i →
        constructApplication s = FatalOr.fatalAssert) := by
  have hinv := runLifecycleFrom_inv ops initialProcState s
    (by constructor <;> simp [initialProcState]) h
  refine ⟨hinv.1, ?_, ?_, ?_⟩
  · intro i hi; simp [app, hi]
  · intro hi; simp [app, hi]
  · intro i hi; simp [constructApplication, hi]

/-- Witness for C2 after one construction. -/
theorem singleton_lifecycle_witness :
    (ProcState.mk (some 0) 1 1).liveCount ≤ 1 :=
  (singleton_lifecycle [LifecycleOp.constructOp] (ProcState.mk (some 0) 1 1)
    (by decide)).1

/-- C3: `runTask` appends the task at the tail of the queue, signals the
wakeup channel exactly once if and only if the queue was empty
immediately before the append, and returns without invoking any task
(the lock-protected section is the single atomic transformation). -/
theorem runTask_contract (st : AppState) (t : Task) :
    (runTask st t).m_task_queue = st.m_task_queue ++ [t]
    ∧ (runTask st t).pendingWakeups
        = (if st.m_task_queue = [] then st.pendingWakeups + 1
          else st.pendingWakeups)
    ∧ (runTask st t).invoked = st.invoked := by
  refine ⟨rfl, ?_, rfl⟩
  by_cases h : st.m_task_queue = [] <;> simp [runTask, h]

/-- C4: if the same thread `a` submits `x1` and later `x2`, with
arbitrary events of other threads interleaved, and the trace drains to
quiescence, then `x1` is invoked at a strictly earlier position of the
main thread's invocation history than `x2`. -/
theorem fifo_per_thread (tid a : Nat) (x1 x2 : Task)
    (p1 p2 p3 : List Event)
    (hq : (runEvents (constructAppState tid)
        (p1 ++ Event.submit a x1 :: (p2 ++ Event.submit a x2 :: p3))).m_task_queue
      = []) :
    ∃ i j : Nat, i < j
      ∧ (runEvents (constructAppState tid)
          (p1 ++ Event.submit a x1 :: (p2 ++ Event.submit a x2 :: p3))).invoked[i]?
        = some x1
      ∧ (runEvents (constructAppState tid)
          (p1 ++ Event.submit a x1 :: (p2 ++ Event.submit a x2 :: p3))).invoked[j]?
        = some x2 := by
  have hinv := (runTask_no_lost_tasks tid
    (p1 ++ Event.submit a x1 :: (p2 ++ Event.submit a x2 :: p3)) hq).1
  have hsub : submitsOf (p1 ++ Event.submit a x1 :: (p2 ++ Event.submit a x2 :: p3))
      = submitsOf p1 ++ x1 :: (submitsOf p2 ++ x2 :: submitsOf p3) := by
    rw [submitsOf_append]
    simp [submitsOf, submitsOf_append]
  rw [hsub] at hinv
  refine ⟨(submitsOf p1).length,
    (submitsOf p1 ++ x1 :: submitsOf p2).length, ?_, ?_, ?_⟩
  · simp
  · rw [hinv]
    exact getElem_append_cons (submitsOf p1) x1 (submitsOf p2 ++ x2 :: submitsOf p3)
  · rw [hinv]
    have hassoc : submitsOf p1 ++ x1 :: (submitsOf p2 ++ x2 :: submitsOf p3)
        = (submitsOf p1 ++ x1 :: submitsOf p2) ++ x2 :: submitsOf p3 := by
      simp
    rw [hassoc]
    exact getElem_append_cons (submitsOf p1 ++ x1 :: submitsOf p2) x2 (submitsOf p3)

/-- Witness for C4 on a concrete trace. -/
theorem fifo_per_thread_witness :
    ∃ i j : Nat, i < j
      ∧ (runEvents (constructAppState 0)
          ([] ++ Event.submit 1 5 :: ([] ++ Event.submit 1 7
            :: [Event.drainStepEv, Event.drainStepEv]))).invoked[i]? = some 5
      ∧ (runEvents (constructAppState 0)
          ([] ++ Event.submit 1 5 :: ([] ++ Event.submit 1 7
            :: [Event.drainStepEv, Event.drainStepEv]))).invoked[j]? = some 7 :=
  fifo_per_thread 0 1 5 7 [] [] [Event.drainStepEv, Event.drainStepEv] (by decide)

/-- C5: a task `t` at the head of the queue that re-entrantly submits `u`
during its own invocation does not deadlock: the drain iteration
completes, invoking `t`; `u` lands in the queue of the same pass and is
eventually invoked. -/
theorem reentrant_runTask (gen : Task → List Task) (st : AppState)
    (t u : Task) (rest : List Task)
    (hq : st.m_task_queue = t :: rest) (hu : u ∈ gen t) :
    t ∈ (drainStep gen st).invoked
    ∧ u ∈ (drainStep gen st).m_task_queue
    ∧ ∃ fuel : Nat, u ∈ (processTaskQueue gen fuel st).invoked := by
  refine ⟨?_, ?_, ?_⟩
  · rw [drainStep_invoked gen st t rest hq]; simp
  · rw [drainStep_queue gen st t rest hq]
    exact List.mem_append_right rest hu
  · obtain ⟨g1, g2, hg⟩ := List.append_of_mem hu
    refine ⟨(rest ++ g1).length + 1 + 1, ?_⟩
    rw [processTaskQueue_succ_nonempty gen ((rest ++ g1).length + 1) st
      (by rw [hq]; simp)]
    apply processTaskQueue_invokes gen (rest ++ g1) u g2 (drainStep gen st)
    rw [drainStep_queue gen st t rest hq, hg]
    simp

/-- Witness for C5: task 0 submits task 1 while being invoked; both end
up invoked. -/
theorem reentrant_runTask_witness :
    0 ∈ (drainStep genOnce (runTask (constructAppState 0) 0)).invoked
    ∧ 1 ∈ (drainStep genOnce (runTask (constructAppState 0) 0)).m_task_queue
    ∧ ∃ fuel : Nat,
        1 ∈ (processTaskQueue genOnce fuel (runTask (constructAppState 0) 0)).invoked :=
  reentrant_runTask genOnce (runTask (constructAppState 0) 0) 0 1 [] rfl
    (by decide)

/-- C6: teardown fires the `destroy` notification exactly once and before
anything else, then discards every queued-but-not-yet-run task without
invoking it (the invocation history does not grow), then deregisters the
wakeup watcher and the backstop timer, closes the wakeup channel and
clears process-wide visibility; the final queue is empty. -/
theorem teardown_discards_silently (st : AppState) :
    (applicationDestructor st).1
      = TeardownEvent.sigDestroy
          :: (st.m_task_queue.map TeardownEvent.discardTask
            ++ [TeardownEvent.delTaskWatch, TeardownEvent.delTaskTimer,
                TeardownEvent.closeTaskPipe, TeardownEvent.clearAppPtr])
    ∧ (applicationDestructor st).1.count TeardownEvent.sigDestroy = 1
    ∧ (applicationDestructor st).1.head? = some TeardownEvent.sigDestroy
    ∧ (∀ t ∈ st.m_task_queue,
        TeardownEvent.discardTask t ∈ (applicationDestructor st).1)
    ∧ (applicationDestructor st).2.invoked = st.invoked
    ∧ (applicationDestructor st).2.m_task_queue = [] := by
  refine ⟨rfl, ?_, rfl, ?_, rfl, rfl⟩
  · show (TeardownEvent.sigDestroy
        :: (st.m_task_queue.map TeardownEvent.discardTask
          ++ [TeardownEvent.delTaskWatch, TeardownEvent.delTaskTimer,
              TeardownEvent.closeTaskPipe, TeardownEvent.clearAppPtr])).count
        TeardownEvent.sigDestroy = 1
    rw [List.count_cons_self, List.count_append,
      count_sigDestroy_map_discard]
    rfl
  · intro t ht
    show TeardownEvent.discardTask t ∈ TeardownEvent.sigDestroy :: _
    apply List.mem_cons_of_mem
    exact List.mem_append_left _ (List.mem_map_of_mem TeardownEvent.discardTask ht)

/-- C7: the drain pass stops exactly on observing an empty queue: it
returns the state unchanged when the queue is already empty; whenever the
invoked tasks collectively enqueue only finitely many further tasks
(witnessed by a rank that strictly decreases along spawning), the pass
reaches the empty queue within `queueWeight` iterations; and for the
self-replicating task the queue is never observed empty, for any
iteration bound, so the pass never returns by design. -/
theorem drain_terminates_iff_finite (gen : Task → List Task)
    (rank : Task → Nat) (hr : ∀ t u, u ∈ gen t → rank u < rank t)
    (st : AppState) :
    (processTaskQueue gen (queueWeight gen rank st.m_task_queue) st).m_task_queue
      = []
    ∧ (∀ (gen2 : Task → List Task) (fuel : Nat) (st2 : AppState),
        st2.m_task_queue = [] → processTaskQueue gen2 fuel st2 = st2)
    ∧ (∀ fuel : Nat,
        (processTaskQueue genLoop fuel stLoop).m_task_queue ≠ []) := by
  refine ⟨processTaskQueue_drains gen rank hr _ st rfl,
    fun gen2 fuel st2 h => processTaskQueue_empty gen2 fuel st2 h, ?_⟩
  intro fuel
  rw [genLoop_never_drains fuel stLoop rfl]
  simp

/-- Witness for C7 with the non-spawning task system on a one-task
queue. -/
theorem drain_terminates_iff_finite_witness :
    (processTaskQueue genNone
        (queueWeight genNone rankZero
          (runTask (constructAppState 0) 5).m_task_queue)
        (runTask (constructAppState 0) 5)).m_task_queue = [] :=
  (drain_terminates_iff_finite genNone rankZero
    (by intro t u hu; simp [genNone] at hu)
    (runTask (constructAppState 0) 5)).1

/-- C8: the main-thread identity captured at construction never changes:
`threadId` returns the constructing thread's identity, and no modelled
operation of the Instance (task submission, drain iterations, whole
drain passes, clearing tasks, teardown, or any event trace) modifies the
stored identity field. -/
theorem thread_identity_stable :
    (∀ tid : Nat, threadId (constructAppState tid) = tid)
    ∧ (∀ (st : AppState) (t : Task), threadId (runTask st t) = threadId st)
    ∧ (∀ (gen : Task → List Task) (st : AppState),
        threadId (drainStep gen st) = threadId st)
    ∧ (∀ (gen : Task → List Task) (fuel : Nat) (st : AppState),
        threadId (processTaskQueue gen fuel st) = threadId st)
    ∧ (∀ st : AppState, threadId (clearTasks st) = threadId st)
    ∧ (∀ st : AppState, threadId (applicationDestructor st).2 = threadId st)
    ∧ (∀ (st : AppState) (es : List Event),
        threadId (runEvents st es) = threadId st) := by
  refine ⟨fun tid => rfl, fun st t => rfl,
    fun gen st => drainStep_tid gen st,
    fun gen fuel st => processTaskQueue_tid gen fuel st,
    fun st => rfl, fun st => rfl,
    fun st es => runEvents_tid es st⟩

/-- C9: `RtlUsb::isReady` returns true exactly when the internal device
handle `dev` is non-null, and the call leaves the object unchanged (the
method is `const`). -/
theorem isReady_iff_dev (r : RtlUsb) :
    ((RtlUsb.isReadyCall r).1 = true ↔ r.dev ≠ none)
    ∧ (RtlUsb.isReadyCall r).2 = r
    ∧ (RtlUsb.isReadyCall r).1 = RtlUsb.isReady r := by
  refine ⟨?_, rfl, rfl⟩
  show r.dev.isSome = true ↔ r.dev ≠ none
  exact Option.isSome_iff_ne_none

/-- C10: the in-class initializers leave the wakeup-channel handles in
explicit absent-sentinel states: on a freshly constructed instance,
before the channel is opened, the wakeup read-end watcher pointer is
null (`0`) and the wakeup write-end descriptor is `-1`. -/
theorem wakeup_handles_initialized (tid : Nat) :
    (constructAppState tid).m_task_rd_watch = 0
    ∧ (constructAppState tid).m_task_wr_pipe = -1 :=
  ⟨rfl, rfl⟩

end Async
